import Mathlib

/-!
Verification development for the AdEx explorer UI core
(`src/src/lib.rs`): the channel data model, the aggregation
functions computed in `view` / `view_channel` / `dai_readable`,
the sort policy, and the `update` state machine.

Machine integers are embedded as `Nat` with explicit `% 2 ^ 64`
where 64-bit overflow matters (the release build wraps on `u64`
iterator sums). Fallible operations (big-integer division by
zero, which panics in the `num` crate and per spec §4.1 "fails
with a DivisionByZero error") are embedded as `Option`, with
`none` standing for the panic/abort.
-/

namespace AdexExplorer

/-- Modelled from the spec: the `BigNum` wrapper (`src/src/bignum.rs` is not
in the source tree). Spec §3/§4.1: an arbitrary-precision non-negative
integer; embedded as `Nat`. The `lib.rs` arithmetic is performed directly on
the wrapped `num::BigUint` (`.0`), which `Nat` models exactly. -/
abbrev BigNum := Nat

/-- Floor division of non-negative big integers, as performed by
`num::BigUint` `Div` / `Integer::div_floor` in `lib.rs`. Division by zero
panics (spec §4.1: `floorDivide` "fails with a DivisionByZero error if
divisor is zero"); the panic is embedded as `none`. -/
def bigDiv (a b : Nat) : Option Nat :=
  if b = 0 then none else some (a / b)

/-- The `ToPrimitive::to_u64` conversion of a `num::BigUint`: `some` of the
value when it fits in an unsigned 64-bit integer, `none` otherwise. -/
def to_u64 (n : Nat) : Option Nat :=
  if n < 2 ^ 64 then some n else none

/-- Modelled from the spec: the lossy `to_f64` conversion
(`toApproximateFloat`, spec §4.1): "returns None if the magnitude exceeds
the floating-point-representable range". The IEEE-754 binary64 overflow
boundary is abstracted as `2 ^ 1024`, and a finite result is kept as the
exact integer rather than a rounded float — the claims under study depend
only on whether the conversion yields a value, not on rounding. -/
def toF64 (n : Nat) : Option Nat :=
  if n < 2 ^ 1024 then some n else none

/-- Constant `DAI_ADDR` from `lib.rs:30`: the configured target asset. -/
def DAI_ADDR : String := "0x89d24A6b4CcB1B6fAA2625fE562bDD9a23260359"

/-- Constant `UPDATE_MS` from `lib.rs:31`. -/
def UPDATE_MS : Int := 30000

/-- `MarketStatusType` from `lib.rs:34-45`. The Rust `derive(PartialOrd, Ord)`
on this fieldless enum orders the variants in declaration order. -/
inductive MarketStatusType
  | Initializing
  | Ready
  | Active
  | Offline
  | Disconnected
  | Unhealthy
  | Withdraw
  | Expired
  | Exhausted
deriving DecidableEq, Repr

/-- Declaration-order discriminant of `MarketStatusType`, mirroring the
derived `Ord` instance used by `sort_by_key` in `lib.rs:161`. -/
def MarketStatusType.ord : MarketStatusType → Nat
  | .Initializing => 0
  | .Ready => 1
  | .Active => 2
  | .Offline => 3
  | .Disconnected => 4
  | .Unhealthy => 5
  | .Withdraw => 6
  | .Expired => 7
  | .Exhausted => 8

/-- Modelled from the spec: a validator descriptor (`src/src/validator.rs`
is not in the source tree; spec §3: each validator descriptor exposes at
least a base URL). -/
structure ValidatorDesc where
  url : String
deriving DecidableEq, Repr

/-- Modelled from the spec: `ChannelSpec` (`src/src/channel.rs` is not in
the source tree; spec §3: channel configuration including `minPerImpression`
(BigNum) and an ordered list of validator descriptors). -/
structure ChannelSpec where
  min_per_impression : BigNum
  validators : List ValidatorDesc
deriving DecidableEq, Repr

/-- `MarketStatus` from `lib.rs:53-63`. The `usd_estimate : f32` field is
display-only floating point and is not consulted by any claim; it is
omitted. The `HashMap<String, BigNum>` of balances is embedded as an
association list (iteration order only feeds a commutative sum). -/
structure MarketStatus where
  status_type : MarketStatusType
  balances : List (String × BigNum)
  last_checked : Int
deriving DecidableEq, Repr

/-- `MarketStatus::balances_sum` from `lib.rs:64-68`: sum of all validator
balances of the channel. -/
def MarketStatus.balances_sum (s : MarketStatus) : Nat :=
  (s.balances.map Prod.snd).sum

/-- `MarketChannel` from `lib.rs:69-77`. -/
structure MarketChannel where
  id : String
  deposit_asset : String
  deposit_amount : BigNum
  status : MarketStatus
  spec : ChannelSpec
deriving DecidableEq, Repr

/-- `Loadable` from `lib.rs:80-83`. -/
inductive Loadable (α : Type)
  | Loading
  | Ready (val : α)
deriving DecidableEq

/-- `ChannelSort` from `lib.rs:84-87`. -/
inductive ChannelSort
  | Deposit
  | Status
deriving DecidableEq, Repr

/-- `Model` from `lib.rs:88-91`. -/
structure Model where
  channels : Loadable (List MarketChannel)
  sort : ChannelSort
deriving DecidableEq

/-- `Model::default` from `lib.rs:92-99`. -/
def Model.default : Model :=
  { channels := .Loading, sort := .Deposit }

/-- `Msg` from `lib.rs:102-108`. The opaque `JsValue` error payload is
embedded as a `String`. -/
inductive Msg
  | LoadCampaigns
  | ChannelsLoaded (channels : List MarketChannel)
  | OnFetchErr (e : String)
  | SortSelected (sort_name : String)

/-- `update` from `lib.rs:110-129`, restricted to its effect on the model.
`LoadCampaigns` only issues a fetch command (`orders.skip().perform_cmd`)
and does not touch the model; `OnFetchErr` does nothing; `SortSelected`
matches the selector name against the two recognized options. -/
def update : Msg → Model → Model
  | .LoadCampaigns, model => model
  | .ChannelsLoaded channels, model => { model with channels := .Ready channels }
  | .OnFetchErr _, model => model
  | .SortSelected sort_name, model =>
    match sort_name with
    | "deposit" => { model with sort := .Deposit }
    | "status" => { model with sort := .Status }
    | _ => model

/-- Per-channel contribution to `total_impressions`, from `lib.rs:140-144`:
`(balances_sum / min_per_impression).to_u64().unwrap_or(0)`. The big-integer
division panics (`none`) when `min_per_impression` is zero; a quotient that
does not fit in `u64` is replaced by `0` by `unwrap_or(0)`. -/
def impressions_contrib (x : MarketChannel) : Option Nat :=
  (bigDiv x.status.balances_sum x.spec.min_per_impression).map
    (fun q => (to_u64 q).getD 0)

/-- Sum of a list of `u64` values as computed by `Iterator::sum::<u64>()` in
a release build: fold with wrapping 64-bit addition. -/
def u64_sum (l : List Nat) : Nat :=
  l.foldl (fun a b => (a + b) % 2 ^ 64) 0

/-- `total_impressions` from `lib.rs:138-145`: map every channel (no asset
filter) to its clamped impression quotient and sum in `u64`. A panic in any
per-channel division aborts the whole computation (`none`). -/
def total_impressions (channels : List MarketChannel) : Option Nat :=
  (channels.mapM impressions_contrib).map u64_sum

/-- `channels_dai` from `lib.rs:149-153`: the channels whose `deposit_asset`
is the configured DAI address. -/
def channels_dai (channels : List MarketChannel) : List MarketChannel :=
  channels.filter (fun c => c.deposit_asset == DAI_ADDR)

/-- `total_paid` from `lib.rs:155`: sum of `balances_sum` over the
DAI-filtered channels (computed before sorting). -/
def total_paid (channels : List MarketChannel) : Nat :=
  ((channels_dai channels).map (fun x => x.status.balances_sum)).sum

/-- Comparison used by `sort_by` in `lib.rs:159`: the comparator
`y.deposit_amount.cmp(&x.deposit_amount)` places `x` before `y` exactly when
`y.deposit_amount <= x.deposit_amount`, i.e. sorts descending by deposit. -/
def byDepositLE (x y : MarketChannel) : Bool :=
  y.deposit_amount ≤ x.deposit_amount

/-- Comparison used by `sort_by_key` in `lib.rs:161`: ascending by the
derived declaration-order `Ord` of `status_type`. -/
def byStatusLE (x y : MarketChannel) : Bool :=
  x.status.status_type.ord ≤ y.status.status_type.ord

/-- The sort applied to `channels_dai` in `lib.rs:157-162`. Rust
`slice::sort_by` / `sort_by_key` are stable sorts; they are embedded as the
stable `List.mergeSort`. -/
def sort_channels : ChannelSort → List MarketChannel → List MarketChannel
  | .Deposit, l => l.mergeSort byDepositLE
  | .Status, l => l.mergeSort byStatusLE

/-- `total_deposit` from `lib.rs:164-167`: sum of `deposit_amount` over the
DAI-filtered channels, computed after the in-place sort. -/
def total_deposit (sort : ChannelSort) (channels : List MarketChannel) : Nat :=
  ((sort_channels sort (channels_dai channels)).map
    (fun c => c.deposit_amount)).sum

/-- The paid-percentage computation of `view_channel`, `lib.rs:227-232`, in
fixed-point units of a thousandth of a percent: `paid_units` is
`(paid_total * 100000).div_floor(deposit_amount)` (panics — `none` — when
`deposit_amount` is zero), and `to_f64().unwrap_or(base)` replaces a
quotient outside the float-representable range by `base = 100000`, which
the later `/ (base / 100.0)` rescaling displays as `100.000%`. The final
float division and `{:.3}` rendering are display-only and keep the value
`units / 1000` percent. -/
def paid_percentage_units (channel : MarketChannel) : Option Nat :=
  (bigDiv (channel.status.balances_sum * 100000) channel.deposit_amount).map
    (fun paid_units => (toF64 paid_units).getD 100000)

/-- Two-digit zero-padded decimal rendering. -/
def pad2 (n : Nat) : String :=
  if n < 10 then "0" ++ toString n else toString n

/-- Decimal rendering of `q` hundredths with two decimal places, the exact
value printed by `format ("{:.2}", q as f64 / 100.0)` (the float conversion
is exact for every `q` below `2 ^ 53`; rounding above that is abstracted to
the exact decimal value). -/
def fmt_cents (q : Nat) : String :=
  toString (q / 100) ++ "." ++ pad2 (q % 100)

/-- `dai_readable` from `lib.rs:247-253`: floor-divide the raw 18-decimals
balance by `10 ^ 16` to hundredths of DAI, convert to float; render as a
two-decimal DAI amount, or as the literal `">max"` when the conversion
yields no value. -/
def dai_readable (bal : Nat) : String :=
  match toF64 (bal / 10 ^ 16) with
  | some hundreds => fmt_cents hundreds ++ " DAI"
  | none => ">max"

/-- Specification-side description of one channel's `total_impressions`
contribution: the floor quotient when it fits in an unsigned 64-bit
integer, and `0` otherwise. Used to characterize `total_impressions`. -/
def contrib_u64 (c : MarketChannel) : Nat :=
  if c.status.balances_sum / c.spec.min_per_impression < 2 ^ 64 then
    c.status.balances_sum / c.spec.min_per_impression
  else 0

/-- A concrete channel whose `min_per_impression` is zero. -/
def czero : MarketChannel :=
  { id := "zero-min",
    deposit_asset := DAI_ADDR,
    deposit_amount := 100,
    status := { status_type := .Active, balances := [("v1", 10)], last_checked := 0 },
    spec := { min_per_impression := 0, validators := [] } }

/-- A concrete channel whose impression quotient is exactly `2 ^ 64`, one
past the largest `u64`. -/
def cbig : MarketChannel :=
  { id := "big-quotient",
    deposit_asset := DAI_ADDR,
    deposit_amount := 1,
    status := { status_type := .Active, balances := [("v1", 2 ^ 64)], last_checked := 0 },
    spec := { min_per_impression := 1, validators := [] } }

/-- A concrete channel whose `deposit_amount` is zero. -/
def cdep0 : MarketChannel :=
  { id := "no-deposit",
    deposit_asset := DAI_ADDR,
    deposit_amount := 0,
    status := { status_type := .Active, balances := [("v1", 5)], last_checked := 0 },
    spec := { min_per_impression := 1, validators := [] } }

/-- A concrete channel whose scaled paid quotient exceeds the
float-representable range. -/
def cbigpct : MarketChannel :=
  { id := "big-percent",
    deposit_asset := DAI_ADDR,
    deposit_amount := 1,
    status := { status_type := .Active, balances := [("v1", 2 ^ 1024)], last_checked := 0 },
    spec := { min_per_impression := 1, validators := [] } }

/-! Helper lemmas -/

theorem impressions_contrib_eq (c : MarketChannel)
    (h : c.spec.min_per_impression ≠ 0) :
    impressions_contrib c = some (contrib_u64 c) := by
  rw [impressions_contrib, bigDiv, if_neg h, Option.map_some', to_u64, contrib_u64]
  by_cases hq : c.status.balances_sum / c.spec.min_per_impression < 2 ^ 64
  · rw [if_pos hq, if_pos hq]
    rfl
  · rw [if_neg hq, if_neg hq]
    rfl

theorem mapM_contrib_eq (l : List MarketChannel) :
    l.mapM impressions_contrib =
      if ∀ c ∈ l, c.spec.min_per_impression ≠ 0 then
        some (l.map contrib_u64)
      else none := by
  induction l with
  | nil => rfl
  | cons c t ih =>
    rw [List.mapM_cons, ih]
    by_cases hc : c.spec.min_per_impression = 0
    · have hnone : impressions_contrib c = none := by
        simp [impressions_contrib, bigDiv, hc]
      have hcond : ¬ ∀ x ∈ c :: t, x.spec.min_per_impression ≠ 0 := by
        intro hall
        exact hall c (List.mem_cons_self c t) hc
      rw [hnone, if_neg hcond]
      rfl
    · rw [impressions_contrib_eq c hc]
      by_cases ht : ∀ x ∈ t, x.spec.min_per_impression ≠ 0
      · have hcond : ∀ x ∈ c :: t, x.spec.min_per_impression ≠ 0 := by
          intro x hx
          rcases List.mem_cons.mp hx with h1 | h1
          · exact h1 ▸ hc
          · exact ht x h1
        rw [if_pos ht, if_pos hcond, List.map_cons]
        rfl
      · have hcond : ¬ ∀ x ∈ c :: t, x.spec.min_per_impression ≠ 0 := by
          intro hall
          exact ht (fun x hx => hall x (List.mem_cons_of_mem c hx))
        rw [if_neg ht, if_neg hcond]
        rfl

theorem foldl_wrap (l : List Nat) (a : Nat) (ha : a < 2 ^ 64) :
    l.foldl (fun x y => (x + y) % 2 ^ 64) a = (a + l.sum) % 2 ^ 64 := by
  induction l generalizing a with
  | nil => rw [List.foldl_nil, List.sum_nil, Nat.add_zero, Nat.mod_eq_of_lt ha]
  | cons b t ih =>
    rw [List.foldl_cons, ih ((a + b) % 2 ^ 64) (Nat.mod_lt _ (by norm_num)),
      List.sum_cons, Nat.mod_add_mod, Nat.add_assoc]

theorem u64_sum_eq (l : List Nat) : u64_sum l = l.sum % 2 ^ 64 := by
  rw [u64_sum, foldl_wrap l 0 (by norm_num), Nat.zero_add]

theorem total_impressions_eq (l : List MarketChannel) :
    total_impressions l =
      if ∀ c ∈ l, c.spec.min_per_impression ≠ 0 then
        some ((l.map contrib_u64).sum % 2 ^ 64)
      else none := by
  rw [total_impressions, mapM_contrib_eq]
  by_cases h : ∀ c ∈ l, c.spec.min_per_impression ≠ 0
  · simp [h, u64_sum_eq]
  · simp [h]

theorem filter_mergeSort_eq {α : Type} (le : α → α → Bool)
    (trans : ∀ a b c, le a b → le b c → le a c)
    (total : ∀ a b, le a b || le b a)
    (p : α → Bool) (hp : ∀ a b, p a → p b → le a b)
    (l : List α) :
    (l.mergeSort le).filter p = l.filter p := by
  have hsub : List.Sublist (l.filter p) l := List.filter_sublist l
  have hpw : (l.filter p).Pairwise (fun a b => le a b = true) := by
    refine List.pairwise_of_forall_mem_list ?_
    intro a ha b hb
    exact hp a b (List.of_mem_filter ha) (List.of_mem_filter hb)
  have h2 : List.Sublist (l.filter p) (l.mergeSort le) :=
    List.sublist_mergeSort trans total hpw hsub
  have hff : (l.filter p).filter p = l.filter p := by
    simp [List.filter_filter]
  have h3 : List.Sublist (l.filter p) ((l.mergeSort le).filter p) := by
    have h4 := h2.filter p
    rwa [hff] at h4
  have hlen : ((l.mergeSort le).filter p).length = (l.filter p).length :=
    ((List.mergeSort_perm l le).filter p).length_eq
  exact (h3.eq_of_length hlen.symm).symm

theorem byDepositLE_iff (x y : MarketChannel) :
    byDepositLE x y = true ↔ y.deposit_amount ≤ x.deposit_amount := by
  rw [byDepositLE]
  exact decide_eq_true_iff

theorem byDepositLE_trans : ∀ a b c : MarketChannel,
    byDepositLE a b → byDepositLE b c → byDepositLE a c := by
  intro a b c hab hbc
  rw [byDepositLE_iff] at hab hbc ⊢
  exact Nat.le_trans hbc hab

theorem byDepositLE_total : ∀ a b : MarketChannel,
    byDepositLE a b || byDepositLE b a := by
  intro a b
  rw [Bool.or_eq_true, byDepositLE_iff, byDepositLE_iff]
  exact Nat.le_total _ _

theorem byStatusLE_iff (x y : MarketChannel) :
    byStatusLE x y = true ↔ x.status.status_type.ord ≤ y.status.status_type.ord := by
  rw [byStatusLE]
  exact decide_eq_true_iff

theorem byStatusLE_trans : ∀ a b c : MarketChannel,
    byStatusLE a b → byStatusLE b c → byStatusLE a c := by
  intro a b c hab hbc
  rw [byStatusLE_iff] at hab hbc ⊢
  exact Nat.le_trans hab hbc

theorem byStatusLE_total : ∀ a b : MarketChannel,
    byStatusLE a b || byStatusLE b a := by
  intro a b
  rw [Bool.or_eq_true, byStatusLE_iff, byStatusLE_iff]
  exact Nat.le_total _ _

/-! Claims -/

/-- C1 (counterexample): on a list containing a channel whose
`min_per_impression` is zero, `total_impressions` aborts with a division
error (`none`); in particular the channel is not treated as contributing 0
(which would yield `some 0`). This refutes the claim as stated. -/
theorem c1_counterexample :
    czero.spec.min_per_impression = 0 ∧
    total_impressions [czero] = none ∧
    total_impressions [czero] ≠ some 0 := by
  refine ⟨rfl, rfl, by decide⟩

/-- C1 (amended): `total_impressions` raises a division error (aborts with
`none`) exactly when the channel list contains a channel whose
`min_per_impression` is zero; such a channel is never treated as merely
contributing 0 to the sum. -/
theorem c1_zero_divisor_aborts (l : List MarketChannel) :
    total_impressions l = none ↔ ∃ c ∈ l, c.spec.min_per_impression = 0 := by
  rw [total_impressions_eq]
  by_cases h : ∀ c ∈ l, c.spec.min_per_impression ≠ 0
  · rw [if_pos h]
    simp only [reduceCtorEq, false_iff]
    intro hex
    rcases hex with ⟨c, hc, hc0⟩
    exact h c hc hc0
  · rw [if_neg h]
    simp only [true_iff]
    push_neg at h
    rcases h with ⟨c, hc, hc0⟩
    exact ⟨c, hc, hc0⟩

/-- C2 (counterexample): the paid-percentage computation of `view_channel`
aborts with a division error (`none`) on a channel whose `deposit_amount`
is zero, rather than reporting the maximum placeholder. This refutes the
claim as stated. -/
theorem c2_counterexample :
    cdep0.deposit_amount = 0 ∧ paid_percentage_units cdep0 = none :=
  ⟨rfl, rfl⟩

/-- C2 (amended): the paid-percentage computation raises a division error
(aborts with `none`) exactly when `deposit_amount` is zero; the maximum
placeholder (100000 thousandths of a percent, displayed `100.000%`) is
reported only when `deposit_amount` is nonzero and the scaled quotient
exceeds the float-representable range. -/
theorem c2_paid_percentage (c : MarketChannel) :
    (paid_percentage_units c = none ↔ c.deposit_amount = 0) ∧
    (c.deposit_amount ≠ 0 →
      2 ^ 1024 ≤ c.status.balances_sum * 100000 / c.deposit_amount →
      paid_percentage_units c = some 100000) := by
  constructor
  · rw [paid_percentage_units, bigDiv]
    by_cases h : c.deposit_amount = 0
    · simp [h]
    · simp [h]
  · intro h hq
    rw [paid_percentage_units, bigDiv, if_neg h, Option.map_some', toF64,
      if_neg (Nat.not_lt.mpr hq)]
    rfl

/-- C2 (witness): a concrete channel with nonzero deposit and an enormous
balance reaches the placeholder branch. -/
theorem c2_witness :
    cbigpct.deposit_amount ≠ 0 ∧
    2 ^ 1024 ≤ cbigpct.status.balances_sum * 100000 / cbigpct.deposit_amount ∧
    paid_percentage_units cbigpct = some 100000 := by
  have h1 : cbigpct.deposit_amount ≠ 0 := one_ne_zero
  have hbs : cbigpct.status.balances_sum = 2 ^ 1024 := by
    simp [cbigpct, MarketStatus.balances_sum]
  have hdep : cbigpct.deposit_amount = 1 := rfl
  have h2 : 2 ^ 1024 ≤ cbigpct.status.balances_sum * 100000 / cbigpct.deposit_amount := by
    rw [hbs, hdep, Nat.div_one]
    exact Nat.le_mul_of_pos_right _ (by norm_num)
  exact ⟨h1, h2, (c2_paid_percentage cbigpct).2 h1 h2⟩

/-- C3: sorting with mode `ByDeposit` orders the channels descending by
`deposit_amount`; channels with equal `deposit_amount` keep their relative
input order (for every deposit value, the subsequence of channels carrying
that value is unchanged); and the result is a permutation of the input. -/
theorem c3_sort_by_deposit (l : List MarketChannel) :
    (sort_channels .Deposit l).Pairwise
      (fun a b => b.deposit_amount ≤ a.deposit_amount) ∧
    (∀ d : Nat,
      (sort_channels .Deposit l).filter (fun c => c.deposit_amount == d) =
        l.filter (fun c => c.deposit_amount == d)) ∧
    (sort_channels .Deposit l).Perm l := by
  simp only [sort_channels]
  refine ⟨?_, ?_, List.mergeSort_perm l byDepositLE⟩
  · have h := List.sorted_mergeSort byDepositLE_trans byDepositLE_total l
    exact h.imp (fun hab => (byDepositLE_iff _ _).mp hab)
  · intro d
    refine filter_mergeSort_eq byDepositLE byDepositLE_trans byDepositLE_total
      (fun c => c.deposit_amount == d) ?_ l
    intro a b ha hb
    rw [beq_iff_eq] at ha hb
    rw [byDepositLE_iff, ha, hb]

/-- C4: the status enum's declared ordering is exactly
`Initializing < Ready < Active < Offline < Disconnected < Unhealthy <
Withdraw < Expired < Exhausted`, and sorting with mode `ByStatus` orders
channels ascending by that ordering, keeps channels of equal status in
their relative input order, and permutes the input. -/
theorem c4_sort_by_status (l : List MarketChannel) :
    (MarketStatusType.ord .Initializing < MarketStatusType.ord .Ready ∧
     MarketStatusType.ord .Ready < MarketStatusType.ord .Active ∧
     MarketStatusType.ord .Active < MarketStatusType.ord .Offline ∧
     MarketStatusType.ord .Offline < MarketStatusType.ord .Disconnected ∧
     MarketStatusType.ord .Disconnected < MarketStatusType.ord .Unhealthy ∧
     MarketStatusType.ord .Unhealthy < MarketStatusType.ord .Withdraw ∧
     MarketStatusType.ord .Withdraw < MarketStatusType.ord .Expired ∧
     MarketStatusType.ord .Expired < MarketStatusType.ord .Exhausted) ∧
    (sort_channels .Status l).Pairwise
      (fun a b => a.status.status_type.ord ≤ b.status.status_type.ord) ∧
    (∀ s : MarketStatusType,
      (sort_channels .Status l).filter (fun c => c.status.status_type == s) =
        l.filter (fun c => c.status.status_type == s)) ∧
    (sort_channels .Status l).Perm l := by
  simp only [sort_channels]
  refine ⟨by decide, ?_, ?_, List.mergeSort_perm l byStatusLE⟩
  · have h := List.sorted_mergeSort byStatusLE_trans byStatusLE_total l
    exact h.imp (fun hab => (byStatusLE_iff _ _).mp hab)
  · intro s
    refine filter_mergeSort_eq byStatusLE byStatusLE_trans byStatusLE_total
      (fun c => c.status.status_type == s) ?_ l
    intro a b ha hb
    rw [beq_iff_eq] at ha hb
    rw [byStatusLE_iff, ha, hb]

/-- C5: for every prior model (Loading or any Ready payload) and every
incoming channel list, `ChannelsLoaded` sets the channels to `Ready` with
exactly the incoming list — replacing, not merging, any previous payload —
and leaves the sort mode unchanged. -/
theorem c5_channels_loaded (m : Model) (channels : List MarketChannel) :
    update (.ChannelsLoaded channels) m =
      { channels := .Ready channels, sort := m.sort } :=
  rfl

/-- C6: for every model and every error payload, `OnFetchErr` leaves the
entire model (channels and sort mode) exactly unchanged. -/
theorem c6_fetch_err_unchanged (m : Model) (e : String) :
    update (.OnFetchErr e) m = m :=
  rfl

/-- C7: `SortSelected` sets the sort mode to `Deposit` on the name
`"deposit"` and to `Status` on `"status"`, and for any other name leaves
the whole model unchanged (no error). -/
theorem c7_sort_selected (m : Model) :
    update (.SortSelected "deposit") m = { m with sort := .Deposit } ∧
    update (.SortSelected "status") m = { m with sort := .Status } ∧
    (∀ sort_name : String, sort_name ≠ "deposit" → sort_name ≠ "status" →
      update (.SortSelected sort_name) m = m) := by
  refine ⟨rfl, rfl, ?_⟩
  intro sort_name h1 h2
  simp only [update]

/-- C7 (witness): the unrecognized name `"bogus"` leaves the default model
unchanged. -/
theorem c7_witness :
    ("bogus" : String) ≠ "deposit" ∧ ("bogus" : String) ≠ "status" ∧
    update (.SortSelected "bogus") Model.default = Model.default :=
  ⟨by decide, by decide,
    (c7_sort_selected Model.default).2.2 "bogus" (by decide) (by decide)⟩

/-- C8 (counterexample): `total_impressions` does not always sum the exact
per-channel floor quotients: a single channel whose quotient is `2 ^ 64`
(one past `u64::MAX`) contributes 0, so the code returns `some 0` while
the claimed sum of floor quotients is `2 ^ 64 ≠ 0`. -/
theorem c8_counterexample :
    total_impressions [cbig] = some 0 ∧
    cbig.status.balances_sum / cbig.spec.min_per_impression = 2 ^ 64 ∧
    (2 ^ 64 : Nat) ≠ 0 := by
  refine ⟨by decide, by decide, by decide⟩

/-- C8 (amended): `total_paid` and `total_deposit` sum `balances_sum` and
`deposit_amount` respectively over exactly the channels whose
`deposit_asset` equals the configured target asset (for either sort mode),
while `total_impressions` is computed over all channels without the asset
filter — each channel contributing its floor quotient when it fits in an
unsigned 64-bit integer and 0 otherwise, accumulated in wrapping 64-bit
arithmetic, provided no channel has a zero `min_per_impression` (otherwise
the computation aborts). -/
theorem c8_totals (sort : ChannelSort) (l : List MarketChannel) :
    total_paid l =
      ((l.filter (fun c => c.deposit_asset == DAI_ADDR)).map
        (fun c => c.status.balances_sum)).sum ∧
    total_deposit sort l =
      ((l.filter (fun c => c.deposit_asset == DAI_ADDR)).map
        (fun c => c.deposit_amount)).sum ∧
    ((∀ c ∈ l, c.spec.min_per_impression ≠ 0) →
      total_impressions l = some ((l.map contrib_u64).sum % 2 ^ 64)) := by
  refine ⟨rfl, ?_, fun h => by rw [total_impressions_eq, if_pos h]⟩
  have hperm : (sort_channels sort (channels_dai l)).Perm (channels_dai l) := by
    cases sort
    · exact List.mergeSort_perm _ _
    · exact List.mergeSort_perm _ _
  rw [total_deposit]
  exact (hperm.map (fun c => c.deposit_amount)).sum_eq

/-- C8 (witness): the amended statement applied to a concrete one-channel
list with nonzero `min_per_impression`. -/
theorem c8_witness :
    (∀ c ∈ [cbig], c.spec.min_per_impression ≠ 0) ∧
    total_impressions [cbig] = some (([cbig].map contrib_u64).sum % 2 ^ 64) :=
  ⟨by decide, (c8_totals .Deposit [cbig]).2.2 (by decide)⟩

set_option maxRecDepth 16384 in
/-- C9: `dai_readable` renders the literal `">max"` exactly when the
scaled value `bal / 10 ^ 16` exceeds the float-representable range, and
otherwise renders the two-decimal DAI string of the floor quotient
`bal / 10 ^ 16` halved to hundredths, suffixed with the unit label. -/
theorem c9_dai_readable (bal : Nat) :
    dai_readable bal =
      if bal / 10 ^ 16 < 2 ^ 1024 then
        toString (bal / 10 ^ 16 / 100) ++ "." ++ pad2 (bal / 10 ^ 16 % 100)
          ++ " DAI"
      else ">max" := by
  by_cases h : bal / 10 ^ 16 < 2 ^ 1024
  · rw [dai_readable, toF64, if_pos h, if_pos h]
    rfl
  · rw [dai_readable, toF64, if_neg h, if_neg h]

/-- C10: a channel whose impression quotient does not fit in an unsigned
64-bit integer contributes exactly 0 to `total_impressions` (removing it
does not change the total), and the total is accumulated in wrapping
64-bit arithmetic (modulo `2 ^ 64`) rather than arbitrary precision. -/
theorem c10_u64_clamp :
    (∀ (pre post : List MarketChannel) (c : MarketChannel),
      c.spec.min_per_impression ≠ 0 →
      2 ^ 64 ≤ c.status.balances_sum / c.spec.min_per_impression →
      total_impressions (pre ++ c :: post) = total_impressions (pre ++ post)) ∧
    (∀ l : List MarketChannel,
      (∀ c ∈ l, c.spec.min_per_impression ≠ 0) →
      total_impressions l = some ((l.map contrib_u64).sum % 2 ^ 64)) := by
  constructor
  · intro pre post c hc hq
    have hcontrib : contrib_u64 c = 0 := by
      rw [contrib_u64, if_neg (Nat.not_lt.mpr hq)]
    have hmem : (∀ x ∈ pre ++ c :: post, x.spec.min_per_impression ≠ 0) ↔
        (∀ x ∈ pre ++ post, x.spec.min_per_impression ≠ 0) := by
      constructor
      · intro h x hx
        rcases List.mem_append.mp hx with hx | hx
        · exact h x (List.mem_append.mpr (Or.inl hx))
        · exact h x (List.mem_append.mpr (Or.inr (List.mem_cons_of_mem c hx)))
      · intro h x hx
        rcases List.mem_append.mp hx with hx | hx
        · exact h x (List.mem_append.mpr (Or.inl hx))
        · rcases List.mem_cons.mp hx with hx | hx
          · exact hx ▸ hc
          · exact h x (List.mem_append.mpr (Or.inr hx))
    have hsum : ((pre ++ c :: post).map contrib_u64).sum =
        ((pre ++ post).map contrib_u64).sum := by
      simp [List.map_append, List.sum_append, hcontrib]
    rw [total_impressions_eq, total_impressions_eq, hsum]
    by_cases h : ∀ x ∈ pre ++ post, x.spec.min_per_impression ≠ 0
    · rw [if_pos (hmem.mpr h), if_pos h]
    · rw [if_neg (fun hh => h (hmem.mp hh)), if_neg h]
  · intro l h
    rw [total_impressions_eq, if_pos h]

/-- C10 (witness): the concrete channel `cbig` (quotient exactly `2 ^ 64`)
contributes 0, and the one-channel total is its clamped sum mod `2 ^ 64`. -/
theorem c10_witness :
    (cbig.spec.min_per_impression ≠ 0 ∧
     2 ^ 64 ≤ cbig.status.balances_sum / cbig.spec.min_per_impression ∧
     total_impressions ([] ++ cbig :: []) = total_impressions ([] ++ [])) ∧
    total_impressions [cbig] = some (([cbig].map contrib_u64).sum % 2 ^ 64) :=
  ⟨⟨by decide, by decide, c10_u64_clamp.1 [] [] cbig (by decide) (by decide)⟩,
    c10_u64_clamp.2 [cbig] (by decide)⟩

end AdexExplorer
